import Mathlib

/-!
Shallow embedding of the ITensor MPS bond-decomposition core
(`mps_impl.h` excerpt) and the quantum-number algebra (`qn.h`).

Tensors, projectors and spectra are opaque to this layer of the code:
every operation the code performs on them (contraction, SVD,
density-matrix decomposition, norm, priming, conjugation) is passed in
as a field of an operation record, and the embedding reproduces the
control flow, the index bookkeeping and the orthogonality-cursor
arithmetic of the source exactly.  Real-valued scalars of the source
(`Real`, i.e. double) are modelled as rationals.
-/

namespace ITensorSpec

/-- Sweep direction, as in the ITensor `Direction` enum. -/
inductive Direction where
  | Fromleft : Direction
  | Fromright : Direction
deriving DecidableEq, Repr

/-- The recognized option keys of the `Args` bag, with the values
`svdBond`, `applyGate` and the overlap wrapper read out of it:
`Noise` (real, default 0), `Cutoff` (real), `UseSVD` (bool, default
false), `DoNormalize` (bool, default false), `Fromleft` (bool, default
true). -/
structure Args where
  noise : ℚ
  cutoff : ℚ
  useSVD : Bool
  doNormalize : Bool
  fromleft : Bool
deriving DecidableEq, Repr

/-- The MPS state visible to this layer: site tensors `A 1 .. A N`
(`A_` in the source, indexed by `Int` to mirror the C++ `int` bond
arithmetic), the length `N`, and the two orthogonality cursors
`l_orth_lim_` and `r_orth_lim_`. -/
structure MPS (α : Type) where
  A : Int → α
  N : Nat
  l_orth_lim : Int
  r_orth_lim : Int

/-- External tensor primitives used by `svdBond` and `applyGate`.
`svd AA args` returns `(U, D, V, spectrum)`: the source call
`svd(AA, A_[b], D, A_[b+1], args)` writes `U` into `A_[b]`, `V` into
`A_[b+1]` and `D` into the diagonal tensor.  `denmatDecomp AA dir PH
args` returns `(L, R, spectrum)` written into `A_[b]`, `A_[b+1]`.
`dummyPH` models the default projector supplied by the projector-free
`svdBond` overload (modelled from the spec: the overload is a thin
delegator whose projector is only consulted by the density-matrix
branch). -/
structure BondOps (α β γ : Type) where
  svd : α → Args → α × α × α × γ
  denmatDecomp : α → Direction → β → Args → α × α × γ
  norm : α → ℚ
  scale : ℚ → α → α
  mul : α → α → α
  noprime : α → α
  dummyPH : β

/-- The precision threshold `1E-12` of the mode-selection test in
`svdBond`. -/
def precThreshold : ℚ := 1 / 10 ^ 12

/-- The guard `1E-16` below which the density branch of `svdBond` skips
normalization. -/
def normGuard : ℚ := 1 / 10 ^ 16

/-- The two updated site tensors `(A_[b], A_[b+1])` and the returned
`Spectrum`, following the branch structure of `MPS::svdBond`: the exact
branch when `usesvd || (noise == 0 && cutoff < 1E-12)`, the
density-matrix branch otherwise. -/
def svdBondTensors (ops : BondOps α β γ) (b : Int) (AA : α) (dir : Direction)
    (PH : β) (args : Args) (psi : MPS α) : α × α × γ :=
  if args.useSVD ∨ (args.noise = 0 ∧ args.cutoff < precThreshold) then
    let r := ops.svd AA args
    let D := if args.doNormalize then ops.scale (1 / ops.norm r.2.1) r.2.1 else r.2.1
    let Ab := if dir = Direction.Fromright then ops.mul r.1 D else r.1
    let Ab1 := if dir = Direction.Fromleft then ops.mul r.2.2.1 D else r.2.2.1
    (Ab, Ab1, r.2.2.2)
  else
    let r := ops.denmatDecomp AA dir PH args
    if args.doNormalize then
      let oc := if dir = Direction.Fromleft then r.2.1 else r.1
      let nrm := ops.norm oc
      let oc' := if nrm > normGuard then ops.scale (1 / nrm) oc else oc
      if dir = Direction.Fromleft then (r.1, oc', r.2.2) else (oc', r.2.1, r.2.2)
    else (r.1, r.2.1, r.2.2)

/-- The state and spectrum produced by a `svdBond` call that passed its
gauge checks: the site tensors at `b` and `b+1` are replaced by the
branch results and the orthogonality cursors updated as in the source
(`l_orth_lim_ = b; if(r_orth_lim_ < b+2) r_orth_lim_ = b+2;` for
`Fromleft`, symmetrically for `Fromright`). -/
def svdBondCore (ops : BondOps α β γ) (b : Int) (AA : α) (dir : Direction)
    (PH : β) (args : Args) (psi : MPS α) : MPS α × γ :=
  let step := svdBondTensors ops b AA dir PH args psi
  ({ A := fun i => if i = b then step.1 else if i = b + 1 then step.2.1 else psi.A i
     N := psi.N
     l_orth_lim :=
       if dir = Direction.Fromleft then b
       else if psi.l_orth_lim > b - 1 then b - 1 else psi.l_orth_lim
     r_orth_lim :=
       if dir = Direction.Fromleft then
         (if psi.r_orth_lim < b + 2 then b + 2 else psi.r_orth_lim)
       else b + 1 },
   step.2.2)

/-- The member `MPS::svdBond(b, AA, dir, PH, args)`.  `setBond(b)` has no
externally observable effect and is omitted.  The two fatal gauge
checks of the source are the only error exits; fatal `Error(...)`
calls are modelled as `Except.error` carrying the message. -/
def svdBond (ops : BondOps α β γ) (b : Int) (AA : α) (dir : Direction)
    (PH : β) (args : Args) (psi : MPS α) : Except String (MPS α × γ) :=
  if dir = Direction.Fromleft ∧ b - 1 > psi.l_orth_lim then
    Except.error "b-1 > l_orth_lim_"
  else if dir = Direction.Fromright ∧ b + 2 < psi.r_orth_lim then
    Except.error "b+2 < r_orth_lim_"
  else
    Except.ok (svdBondCore ops b AA dir PH args psi)

/-- Predicate `isOrtho(psi)`: `psi.leftLim()+1 == psi.rightLim()-1`. -/
def isOrtho (psi : MPS α) : Bool :=
  psi.l_orth_lim + 1 = psi.r_orth_lim - 1

/-- Accessor `orthoCenter(psi)`: errors unless `isOrtho(psi)`, otherwise returns
`leftLim + 1`. -/
def orthoCenter (psi : MPS α) : Except String Int :=
  if ¬ isOrtho psi then Except.error "orthogonality center not well defined."
  else Except.ok (psi.l_orth_lim + 1)

/-- Function `norm(psi)`: errors unless `isOrtho(psi)`, otherwise returns the
norm of the tensor at the orthogonality center.  The tensor norm is the
external primitive `normT`. -/
def normMPS (normT : α → ℚ) (psi : MPS α) : Except String ℚ :=
  if ¬ isOrtho psi then
    Except.error "MPS must have well-defined ortho center to compute norm; call .position(j) or .orthogonalize() to set ortho center"
  else
    match orthoCenter psi with
    | Except.error e => Except.error e
    | Except.ok c => Except.ok (normT (psi.A c))

/-- A complex scalar (`Cplx`), modelled with rational parts. -/
structure Cplx where
  re : ℚ
  im : ℚ
deriving DecidableEq, Repr

/-- External tensor primitives used by the overlap contraction:
common-index lookup (`none` models a null `Index`), conjugation,
priming on a given index, priming on all `Link` indices, contraction,
and complex scalar extraction. -/
structure OverlapOps (α ι : Type) where
  commonIndex : α → α → Option ι
  dag : α → α
  primeOn : α → ι → α
  primeLink : α → α
  mul : α → α → α
  cplx : α → Cplx

/-- Function `linkInd(psi, b)`: the common `Link` index of `A(b)` and `A(b+1)`,
possibly null. -/
def linkInd (ops : OverlapOps α ι) (psi : MPS α) (b : Int) : Option ι :=
  ops.commonIndex (psi.A b) (psi.A (b + 1))

/-- Function `overlapC(psi, phi)`: errors when the lengths differ, otherwise
contracts `phi` against the conjugate of `psi` site by site from
position 1 to `N`, exactly as in the source (special-casing a null
boundary link and the `N == 1` state). -/
def overlapC (ops : OverlapOps α ι) (psi phi : MPS α) : Except String Cplx :=
  if psi.N ≠ phi.N then Except.error "overlap: mismatched N"
  else
    let n : Int := psi.N
    let L0 :=
      match linkInd ops psi 1 with
      | some l1 => ops.mul (phi.A 1) (ops.dag (ops.primeOn (psi.A 1) l1))
      | none => ops.mul (phi.A 1) (ops.dag (psi.A 1))
    if psi.N = 1 then Except.ok (ops.cplx L0)
    else
      let L1 := (List.range (psi.N - 2)).foldl
        (fun L k =>
          ops.mul (ops.mul L (phi.A ((k : Int) + 2)))
            (ops.dag (ops.primeLink (psi.A ((k : Int) + 2)))))
        L0
      let L2 := ops.mul L1 (phi.A n)
      match linkInd ops psi (n - 1) with
      | some lNm => Except.ok (ops.cplx (ops.mul (ops.dag (ops.primeOn (psi.A n) lNm)) L2))
      | none => Except.ok (ops.cplx (ops.mul (ops.dag (psi.A n)) L2))

/-- The relative tolerance `1E-12` of the diagnostic in the real-valued
overlap wrapper. -/
def overlapImagTol : ℚ := 1 / 10 ^ 12

/-- The real-valued wrapper `overlap(psi, phi)`: takes the real part of
`overlapC` and reports (second component, modelling the `printfln`
diagnostic) whether `fabs(im) > 1E-12 * fabs(re)`; the returned value is
the real part regardless. -/
def overlapR (ops : OverlapOps α ι) (psi phi : MPS α) : Except String (ℚ × Bool) :=
  match overlapC ops psi phi with
  | Except.error e => Except.error e
  | Except.ok z => Except.ok (z.re, decide (|z.im| > overlapImagTol * |z.re|))

/-- Function `sum(L, R, args)` on two states: delegates to the external
pairwise-add-and-compress primitive (`plusEq`), passed in as `add`. -/
def sum2 (add : μ → μ → μ) (L R : μ) : μ :=
  add L R

/-- One round of the pairing loop of `sum(terms, args)`: adjacent pairs
are replaced by their pairwise sum and a trailing unpaired term is
carried over unmodified. -/
def pairTerms (add : μ → μ → μ) : List μ → List μ
  | [] => []
  | [a] => [a]
  | a :: b :: rest => sum2 add a b :: pairTerms add rest

theorem pairTerms_length (add : μ → μ → μ) (l : List μ) :
    (pairTerms add l).length = (l.length + 1) / 2 := by
  match l with
  | [] => simp [pairTerms]
  | [a] => simp [pairTerms]
  | a :: b :: rest =>
    simp only [pairTerms, List.length_cons]
    rw [pairTerms_length add rest]
    omega

/-- Function `sum(terms, args)` on a vector of states: two terms are added
directly, one term is returned unchanged, more than two terms are
paired up and the sum recurses on the halved list, and the empty list
yields a default-constructed state (`dflt`). -/
def sumList (add : μ → μ → μ) (dflt : μ) (terms : List μ) : μ :=
  match terms with
  | [a, b] => sum2 add a b
  | [a] => a
  | l =>
    if h : l.length > 2 then sumList add dflt (pairTerms add l)
    else dflt
termination_by terms.length
decreasing_by
  rw [pairTerms_length]
  omega

/-- The projector-free overload `svdBond(b, AA, dir, args)` (modelled
from the spec: a thin delegator supplying a default projector, which
only the density-matrix branch consults). -/
def svdBondNoPH (ops : BondOps α β γ) (b : Int) (AA : α) (dir : Direction)
    (args : Args) (psi : MPS α) : Except String (MPS α × γ) :=
  svdBond ops b AA dir ops.dummyPH args psi

/-- Function `applyGate(gate, psi, args)`: reads the orthogonality center
(erroring if it is not well defined), contracts `A(c) * A(c+1) * gate`,
removes priming, and calls `svdBond` on bond `c` in the direction
selected by the `Fromleft` option. -/
def applyGate (ops : BondOps α β γ) (gate : α) (psi : MPS α)
    (args : Args) : Except String (MPS α × γ) :=
  match orthoCenter psi with
  | Except.error e => Except.error e
  | Except.ok c =>
    let AA := ops.noprime (ops.mul (ops.mul (psi.A c) (psi.A (c + 1))) gate)
    if args.fromleft then svdBondNoPH ops c AA Direction.Fromleft args psi
    else svdBondNoPH ops c AA Direction.Fromright args psi

/-- A `QNVal` sector: a stored value and a `mod` field (`mod == 1`:
integer addition; `mod > 1`: addition modulo `mod`; `mod < 0`: the same,
fermionic; `mod == 0`: inactive). -/
structure QNVal where
  val : Int
  mod : Int
deriving DecidableEq, Repr

/-- Modelled from the spec: the canonical reduction performed by
`QNVal::set` (implementation file absent from src) — a sector with
modulus of absolute value above 1 stores the canonical nonnegative
representative of its value modulo that absolute value; other sectors
store the value unchanged. -/
def canonRep (m v : Int) : Int :=
  if 1 < |m| then v % |m| else v

/-- Constructor `QNVal(v, m)`: stores the modulus and the canonically reduced
value. -/
def mkQNVal (v m : Int) : QNVal :=
  { val := canonRep m v, mod := m }

/-- A default-constructed `QNVal`: value 0, inactive. -/
def qnval0 : QNVal :=
  { val := 0, mod := 0 }

/-- A `QN`: a fixed array of four `QNVal` sectors (`QNSize() == 4`). -/
structure QN where
  s0 : QNVal
  s1 : QNVal
  s2 : QNVal
  s3 : QNVal
deriving DecidableEq, Repr

/-- The sector storage of a `QN` as a list, in order. -/
def QN.store (q : QN) : List QNVal :=
  [q.s0, q.s1, q.s2, q.s3]

/-- A `QN` with one explicit sector, the rest default-constructed. -/
def QN1 (v : QNVal) : QN :=
  { s0 := v, s1 := qnval0, s2 := qnval0, s3 := qnval0 }

/-- A `QN` with two explicit sectors, the rest default-constructed. -/
def QN2 (v0 v1 : QNVal) : QN :=
  { s0 := v0, s1 := v1, s2 := qnval0, s3 := qnval0 }

/-- Predicate `isFermionic(QNVal)`: the modulus is negative. -/
def isFermionicV (v : QNVal) : Bool :=
  v.mod < 0

/-- Predicate `isActive(QNVal)`: the modulus is nonzero. -/
def isActiveV (v : QNVal) : Bool :=
  v.mod ≠ 0

/-- Modelled from the spec: `isFermionic(QN)` (implementation file
absent from src) — true when any sector is fermionic. -/
def isFermionicQN (q : QN) : Bool :=
  q.store.any isFermionicV

/-- Modelled from the spec: the factor a single sector contributes to
`paritySign` — `(-1)^value` for a fermionic sector, `1` otherwise. -/
def sectorSign (v : QNVal) : Int :=
  if isFermionicV v then (-1) ^ v.val.natAbs else 1

/-- Modelled from the spec: `paritySign(QN)` (implementation file
absent from src) — the product over the fermionic sectors of
`(-1)^value`. -/
def paritySign (q : QN) : Int :=
  (q.store.map sectorSign).prod

/-- Modelled from the spec: per-sector addition — componentwise with
canonical reduction; combining sectors with mismatched moduli is a
caller error (fails loudly), modelled as `none`. -/
def addQNVal (a b : QNVal) : Option QNVal :=
  if a.mod ≠ b.mod then none
  else some (mkQNVal (a.val + b.val) a.mod)

/-- Modelled from the spec: `QN` addition, componentwise over the four
sectors, erroring when any pair of sectors mismatches. -/
def addQN (qa qb : QN) : Option QN := do
  let t0 ← addQNVal qa.s0 qb.s0
  let t1 ← addQNVal qa.s1 qb.s1
  let t2 ← addQNVal qa.s2 qb.s2
  let t3 ← addQNVal qa.s3 qb.s3
  pure { s0 := t0, s1 := t1, s2 := t2, s3 := t3 }

/-- Constructor `spin(Sz)`: one sector, `mod = 1`. -/
def spin (Sz : Int) : QN :=
  QN1 (mkQNVal Sz 1)

/-- Constructor `boson(Nb)`: one sector, `mod = 1`. -/
def boson (Nb : Int) : QN :=
  QN1 (mkQNVal Nb 1)

/-- Constructor `spinboson(Sz, Nb)`: two sectors, both `mod = 1`. -/
def spinboson (Sz Nb : Int) : QN :=
  QN2 (mkQNVal Sz 1) (mkQNVal Nb 1)

/-- Constructor `fermion(Nf)`: one sector, `mod = -1`. -/
def fermion (Nf : Int) : QN :=
  QN1 (mkQNVal Nf (-1))

/-- Constructor `fparity(Pf)`: one sector, `mod = -2`. -/
def fparity (Pf : Int) : QN :=
  QN1 (mkQNVal Pf (-2))

/-- Constructor `electron(Sz, Nf)`: two sectors, `mod = 1` and `mod = -1`. -/
def electron (Sz Nf : Int) : QN :=
  QN2 (mkQNVal Sz 1) (mkQNVal Nf (-1))

/-- Constructor `elparity(Sz, Pf)`: two sectors, `mod = 1` and `mod = -2`. -/
def elparity (Sz Pf : Int) : QN :=
  QN2 (mkQNVal Sz 1) (mkQNVal Pf (-2))

/-- Constructor `clock(n, N)`: one sector, `mod = N`. -/
def clock (n N : Int) : QN :=
  QN1 (mkQNVal n N)

/-- A trivial operation record over rational "tensors", used to run the
bond-decomposition model on concrete inputs. -/
def qBondOps : BondOps ℚ Unit ℚ where
  svd := fun a _ => (a, a, a, a)
  denmatDecomp := fun a _ _ _ => (a, a, a)
  norm := fun a => a
  scale := fun _ a => a
  mul := fun a _ => a
  noprime := fun a => a
  dummyPH := ()

/-- A concrete two-site state with `leftLim = 0`, `rightLim = 2`. -/
def psiW : MPS ℚ where
  A := fun _ => 5
  N := 2
  l_orth_lim := 0
  r_orth_lim := 2

/-- A concrete option bag: `UseSVD` set, the rest at their defaults. -/
def argsW : Args where
  noise := 0
  cutoff := 0
  useSVD := true
  doNormalize := false
  fromleft := true

/-- A trivial overlap-operation record over rational "tensors". -/
def qOverlapOps : OverlapOps ℚ Unit where
  commonIndex := fun _ _ => none
  dag := fun a => a
  primeOn := fun a _ => a
  primeLink := fun a => a
  mul := fun a _ => a
  cplx := fun a => { re := a, im := 0 }

/-- A concrete QN with one fermionic sector of odd modulus `-3` and
value 2. -/
def qc1 : QN :=
  QN1 (mkQNVal 2 (-3))

/-- A concrete QN with one fermionic sector of odd modulus `-3` and
value 1. -/
def qc2 : QN :=
  QN1 (mkQNVal 1 (-3))

/-- The sum of `qc1` and `qc2`: the sector value wraps to
`(2+1) mod 3 = 0`. -/
def qcSum : QN :=
  QN1 (mkQNVal 0 (-3))

/-! Theorems. -/

/-- Helper: a successful `svdBond` call returns exactly the core
result. -/
theorem svdBond_ok_core (ops : BondOps α β γ) (b : Int) (AA : α) (dir : Direction)
    (PH : β) (args : Args) (psi psi' : MPS α) (sp : γ)
    (h : svdBond ops b AA dir PH args psi = Except.ok (psi', sp)) :
    (psi', sp) = svdBondCore ops b AA dir PH args psi := by
  unfold svdBond at h
  split_ifs at h with h1 h2
  rw [Except.ok.injEq] at h
  exact h.symm

/-- C2: `svdBond(b, AA, dir, PH, args)` fails fatally if and only if its
gauge precondition is violated — for a `Fromleft` call exactly when
`b - 1 > leftLim`, for a `Fromright` call exactly when
`b + 2 < rightLim`; otherwise it returns a decomposed state. -/
theorem svdBond_error_iff (ops : BondOps α β γ) (b : Int) (AA : α) (dir : Direction)
    (PH : β) (args : Args) (psi : MPS α) :
    (∃ e, svdBond ops b AA dir PH args psi = Except.error e) ↔
      ((dir = Direction.Fromleft ∧ b - 1 > psi.l_orth_lim) ∨
       (dir = Direction.Fromright ∧ b + 2 < psi.r_orth_lim)) := by
  unfold svdBond
  split_ifs with h1 h2 <;> simp_all

/-- C1: for every `svdBond` call that passes its precondition checks,
the orthogonality window is updated exactly as: `Fromleft` sets
`leftLim := b` and `rightLim := max(rightLim, b+2)`; `Fromright` sets
`rightLim := b+1` and `leftLim := min(leftLim, b-1)`. -/
theorem svdBond_lims (ops : BondOps α β γ) (b : Int) (AA : α) (dir : Direction)
    (PH : β) (args : Args) (psi psi' : MPS α) (sp : γ)
    (h : svdBond ops b AA dir PH args psi = Except.ok (psi', sp)) :
    (dir = Direction.Fromleft →
       psi'.l_orth_lim = b ∧ psi'.r_orth_lim = max psi.r_orth_lim (b + 2)) ∧
    (dir = Direction.Fromright →
       psi'.r_orth_lim = b + 1 ∧ psi'.l_orth_lim = min psi.l_orth_lim (b - 1)) := by
  have hc := svdBond_ok_core ops b AA dir PH args psi psi' sp h
  have hps : psi' = (svdBondCore ops b AA dir PH args psi).1 := by rw [← hc]
  subst hps
  constructor
  · intro hd
    subst hd
    simp only [svdBondCore, eq_self_iff_true, if_true, reduceCtorEq, if_false]
    refine ⟨trivial, ?_⟩
    split_ifs <;> omega
  · intro hd
    subst hd
    simp only [svdBondCore, eq_self_iff_true, if_true, reduceCtorEq, if_false]
    refine ⟨trivial, ?_⟩
    split_ifs <;> omega

/-- C9: a successful `svdBond(b, ...)` call modifies only the site
tensors at positions `b` and `b+1` (and the orthogonality cursors): the
length and every other site tensor are unchanged. -/
theorem svdBond_frame (ops : BondOps α β γ) (b : Int) (AA : α) (dir : Direction)
    (PH : β) (args : Args) (psi psi' : MPS α) (sp : γ)
    (h : svdBond ops b AA dir PH args psi = Except.ok (psi', sp)) :
    psi'.N = psi.N ∧ ∀ i : Int, i ≠ b → i ≠ b + 1 → psi'.A i = psi.A i := by
  have hc := svdBond_ok_core ops b AA dir PH args psi psi' sp h
  have hps : psi' = (svdBondCore ops b AA dir PH args psi).1 := by rw [← hc]
  subst hps
  refine ⟨rfl, ?_⟩
  intro i hib hib1
  simp only [svdBondCore]
  simp [hib, hib1]

/-- C3: a successful `svdBond` call takes the exact SVD branch if and
only if `UseSVD` is set or `Noise == 0` and `Cutoff < 1E-12`; in that
branch the spectrum and the tensor at `b` resp. `b+1` come from the
`svd` primitive, with the diagonal factor `D` (rescaled by the inverse
of its norm when `DoNormalize` is set) multiplied into `A[b+1]` for a
`Fromleft` call and into `A[b]` for a `Fromright` call; in all other
cases the results come from the density-matrix primitive. -/
theorem svdBond_branch (ops : BondOps α β γ) (b : Int) (AA : α) (dir : Direction)
    (PH : β) (args : Args) (psi psi' : MPS α) (sp : γ)
    (h : svdBond ops b AA dir PH args psi = Except.ok (psi', sp)) :
    ((args.useSVD = true ∨ (args.noise = 0 ∧ args.cutoff < precThreshold)) →
       (let r := ops.svd AA args
        let D := if args.doNormalize then ops.scale (1 / ops.norm r.2.1) r.2.1 else r.2.1
        sp = r.2.2.2 ∧
        (dir = Direction.Fromleft →
           psi'.A b = r.1 ∧ psi'.A (b + 1) = ops.mul r.2.2.1 D) ∧
        (dir = Direction.Fromright →
           psi'.A b = ops.mul r.1 D ∧ psi'.A (b + 1) = r.2.2.1))) ∧
    (¬ (args.useSVD = true ∨ (args.noise = 0 ∧ args.cutoff < precThreshold)) →
       (let r := ops.denmatDecomp AA dir PH args
        let oc := if dir = Direction.Fromleft then r.2.1 else r.1
        let oc' := if args.doNormalize ∧ ops.norm oc > normGuard then
                     ops.scale (1 / ops.norm oc) oc else oc
        sp = r.2.2 ∧
        (dir = Direction.Fromleft → psi'.A b = r.1 ∧ psi'.A (b + 1) = oc') ∧
        (dir = Direction.Fromright → psi'.A b = oc' ∧ psi'.A (b + 1) = r.2.1))) := by
  have hc := svdBond_ok_core ops b AA dir PH args psi psi' sp h
  have hps : psi' = (svdBondCore ops b AA dir PH args psi).1 := by
    rw [← hc]
  have hsp : sp = (svdBondCore ops b AA dir PH args psi).2 := by
    rw [← hc]
  subst hps
  subst hsp
  constructor
  · intro hcond
    have hcond' : (args.useSVD ∨ (args.noise = 0 ∧ args.cutoff < precThreshold)) := by
      rcases hcond with hu | hnc
      · exact Or.inl (by simp [hu])
      · exact Or.inr hnc
    refine ⟨?_, ?_, ?_⟩
    · simp [svdBondCore, svdBondTensors, if_pos hcond']
    · intro hd
      subst hd
      constructor <;> simp [svdBondCore, svdBondTensors, if_pos hcond']
    · intro hd
      subst hd
      constructor <;> simp [svdBondCore, svdBondTensors, if_pos hcond']
  · intro hcond
    have hcond' : ¬ (args.useSVD ∨ (args.noise = 0 ∧ args.cutoff < precThreshold)) := by
      intro hx
      apply hcond
      rcases hx with hu | hnc
      · exact Or.inl (by simpa using hu)
      · exact Or.inr hnc
    refine ⟨?_, ?_, ?_⟩
    · cases hb : args.doNormalize <;>
        simp [svdBondCore, svdBondTensors, if_neg hcond', hb] <;>
        cases dir <;> simp
    · intro hd
      subst hd
      cases hb : args.doNormalize <;>
        constructor <;>
        simp [svdBondCore, svdBondTensors, if_neg hcond', hb]
    · intro hd
      subst hd
      cases hb : args.doNormalize <;>
        constructor <;>
        simp [svdBondCore, svdBondTensors, if_neg hcond', hb]

/-- C4: `isOrtho(psi)` holds exactly when `leftLim+1 == rightLim-1`;
under that condition `orthoCenter` returns `leftLim+1` and `norm`
returns exactly the norm of the tensor `A(leftLim+1)`; otherwise both
abort with an error. -/
theorem isOrtho_center_norm (normT : α → ℚ) (psi : MPS α) :
    (isOrtho psi = true ↔ psi.l_orth_lim + 1 = psi.r_orth_lim - 1) ∧
    (isOrtho psi = true →
       orthoCenter psi = Except.ok (psi.l_orth_lim + 1) ∧
       normMPS normT psi = Except.ok (normT (psi.A (psi.l_orth_lim + 1)))) ∧
    (isOrtho psi = false →
       (∃ e, orthoCenter psi = Except.error e) ∧
       (∃ e, normMPS normT psi = Except.error e)) := by
  refine ⟨?_, ?_, ?_⟩
  · simp [isOrtho]
  · intro ho
    constructor
    · simp [orthoCenter, ho]
    · simp [normMPS, orthoCenter, ho]
  · intro ho
    constructor
    · simp [orthoCenter, ho]
    · simp [normMPS, ho]

/-- C4 witness: a concrete two-site state with `leftLim = 0`,
`rightLim = 2` is orthogonal with center 1 and norm equal to the norm
of its first tensor. -/
theorem isOrtho_center_norm_witness :
    orthoCenter (MPS.mk (fun _ => (5 : ℚ)) 2 0 2) = Except.ok 1 ∧
    normMPS (fun q => q) (MPS.mk (fun _ => (5 : ℚ)) 2 0 2) = Except.ok 5 :=
  (isOrtho_center_norm (fun q => q) (MPS.mk (fun _ => (5 : ℚ)) 2 0 2)).2.1 rfl

/-- C1 witness: a concrete `Fromleft` call on bond 1 of `psiW` sets
`leftLim` to 1 and `rightLim` to `max 2 3 = 3`. -/
theorem svdBond_lims_witness :
    (svdBondCore qBondOps 1 (3 : ℚ) Direction.Fromleft () argsW psiW).1.l_orth_lim = 1 ∧
    (svdBondCore qBondOps 1 (3 : ℚ) Direction.Fromleft () argsW psiW).1.r_orth_lim = 3 := by
  have h := (svdBond_lims qBondOps 1 (3 : ℚ) Direction.Fromleft () argsW psiW
      (svdBondCore qBondOps 1 (3 : ℚ) Direction.Fromleft () argsW psiW).1
      (svdBondCore qBondOps 1 (3 : ℚ) Direction.Fromleft () argsW psiW).2 rfl).1 rfl
  refine ⟨h.1, ?_⟩
  rw [h.2]
  decide

/-- C9 witness: the same concrete call leaves the length and the tensor
at position 0 unchanged. -/
theorem svdBond_frame_witness :
    (svdBondCore qBondOps 1 (3 : ℚ) Direction.Fromleft () argsW psiW).1.N = 2 ∧
    (svdBondCore qBondOps 1 (3 : ℚ) Direction.Fromleft () argsW psiW).1.A 0 = 5 := by
  have h := svdBond_frame qBondOps 1 (3 : ℚ) Direction.Fromleft () argsW psiW
      (svdBondCore qBondOps 1 (3 : ℚ) Direction.Fromleft () argsW psiW).1
      (svdBondCore qBondOps 1 (3 : ℚ) Direction.Fromleft () argsW psiW).2 rfl
  exact ⟨h.1, h.2 0 (by decide) (by decide)⟩

/-- C3 witness: with `UseSVD` set the same concrete call takes the
exact branch, whose spectrum and site tensors come from the `svd`
primitive with `D` multiplied into `A[b+1]`. -/
theorem svdBond_branch_witness :
    (svdBondCore qBondOps 1 (3 : ℚ) Direction.Fromleft () argsW psiW).2 = 3 ∧
    (svdBondCore qBondOps 1 (3 : ℚ) Direction.Fromleft () argsW psiW).1.A 1 = 3 ∧
    (svdBondCore qBondOps 1 (3 : ℚ) Direction.Fromleft () argsW psiW).1.A (1 + 1) = 3 := by
  have h := (svdBond_branch qBondOps 1 (3 : ℚ) Direction.Fromleft () argsW psiW
      (svdBondCore qBondOps 1 (3 : ℚ) Direction.Fromleft () argsW psiW).1
      (svdBondCore qBondOps 1 (3 : ℚ) Direction.Fromleft () argsW psiW).2 rfl).1
      (Or.inl rfl)
  obtain ⟨hsp, hfl, -⟩ := h
  obtain ⟨hb, hb1⟩ := hfl rfl
  refine ⟨hsp, hb, ?_⟩
  rw [hb1]
  decide

/-- C10: `applyGate(gate, psi, args)` aborts with the
orthogonality-center error (touching no tensor) when the center is not
well defined; otherwise it contracts `A(c) * A(c+1) * gate` at the
center `c = leftLim+1`, removes priming, and calls `svdBond` on bond
`c` in the direction selected by the `Fromleft` option. -/
theorem applyGate_spec (ops : BondOps α β γ) (gate : α) (psi : MPS α) (args : Args) :
    (isOrtho psi = false →
       applyGate ops gate psi args =
         Except.error "orthogonality center not well defined.") ∧
    (isOrtho psi = true →
       applyGate ops gate psi args =
         svdBond ops (psi.l_orth_lim + 1)
           (ops.noprime (ops.mul
             (ops.mul (psi.A (psi.l_orth_lim + 1)) (psi.A (psi.l_orth_lim + 1 + 1))) gate))
           (if args.fromleft then Direction.Fromleft else Direction.Fromright)
           ops.dummyPH args psi) := by
  constructor
  · intro ho
    simp [applyGate, orthoCenter, ho]
  · intro ho
    simp only [applyGate, orthoCenter, ho, not_true, if_neg, Bool.true_eq_false,
      not_false_iff, if_false]
    cases hf : args.fromleft <;> simp [svdBondNoPH, hf]

/-- C10 witness: on the concrete orthogonal state `psiW` (center 1),
`applyGate` reduces to the corresponding `Fromleft` `svdBond` call on
bond 1. -/
theorem applyGate_spec_witness :
    applyGate qBondOps (3 : ℚ) psiW argsW =
      svdBond qBondOps 1
        (qBondOps.noprime (qBondOps.mul (qBondOps.mul (psiW.A 1) (psiW.A 2)) 3))
        Direction.Fromleft qBondOps.dummyPH argsW psiW := by
  have h := (applyGate_spec qBondOps (3 : ℚ) psiW argsW).2 rfl
  exact h

/-- C5: the overlap fails fatally if and only if the two states have
different lengths; on equal lengths the real-valued wrapper always
returns the real part of the complex overlap, and flags the diagnostic
exactly when the absolute imaginary part exceeds `1E-12` times the
absolute real part, without failing or altering the returned value. -/
theorem overlapC_ok_of_eq (ops : OverlapOps α ι) (psi phi : MPS α)
    (hN : psi.N = phi.N) :
    ∃ z, overlapC ops psi phi = Except.ok z := by
  unfold overlapC
  rw [if_neg (not_not_intro hN)]
  split <;> split <;> dsimp only <;> (try split) <;> exact ⟨_, rfl⟩

theorem overlap_spec (ops : OverlapOps α ι) (psi phi : MPS α) :
    ((∃ e, overlapR ops psi phi = Except.error e) ↔ psi.N ≠ phi.N) ∧
    (∀ z : Cplx, overlapC ops psi phi = Except.ok z →
       overlapR ops psi phi =
         Except.ok (z.re, decide (|z.im| > overlapImagTol * |z.re|))) := by
  constructor
  · constructor
    · rintro ⟨e, he⟩
      by_contra hN
      obtain ⟨z, hz⟩ := overlapC_ok_of_eq ops psi phi hN
      unfold overlapR at he
      rw [hz] at he
      simp at he
    · intro hN
      refine ⟨"overlap: mismatched N", ?_⟩
      unfold overlapR
      have hz : overlapC ops psi phi = Except.error "overlap: mismatched N" := by
        unfold overlapC
        rw [if_pos hN]
      rw [hz]
  · intro z hz
    unfold overlapR
    rw [hz]

/-- C5 witness: two concrete single-site states of equal length produce
the real part of their complex overlap with the diagnostic flag off. -/
theorem overlap_spec_witness :
    overlapR qOverlapOps psiW psiW = Except.ok (5, false) := by
  have h := (overlap_spec qOverlapOps psiW psiW).2 (Cplx.mk 5 0) rfl
  rw [h]
  norm_num [overlapImagTol]

/-- C6: `sum` on a vector of states returns the default state for the
empty list, the sole term unchanged for a singleton, and for longer
lists pairs adjacent terms (carrying a trailing unpaired term over
unmodified) and recurses on the halved list; in particular on three
terms `a, b, c` it returns `sum(sum(a, b), c)`. -/
theorem sumList_gt2 (add : μ → μ → μ) (dflt : μ) (x y z : μ) (rest : List μ) :
    sumList add dflt (x :: y :: z :: rest) =
      sumList add dflt (pairTerms add (x :: y :: z :: rest)) := by
  rw [sumList]
  rw [dif_pos (by simp only [List.length_cons]; omega)]
  all_goals intros
  all_goals simp_all

theorem sumList_spec (add : μ → μ → μ) (dflt : μ) (a b c : μ) (l : List μ) :
    sumList add dflt [] = dflt ∧
    sumList add dflt [a] = a ∧
    (l.length > 2 → sumList add dflt l = sumList add dflt (pairTerms add l)) ∧
    (∀ x y : μ, ∀ rest : List μ,
       pairTerms add (x :: y :: rest) = sum2 add x y :: pairTerms add rest) ∧
    pairTerms add [a] = [a] ∧
    sumList add dflt [a, b, c] = sum2 add (sum2 add a b) c := by
  refine ⟨by simp [sumList], by simp [sumList], ?_, ?_, by simp [pairTerms], ?_⟩
  · intro hl
    match l, hl with
    | x :: y :: z :: rest, _ => exact sumList_gt2 add dflt x y z rest
  · intro x y rest
    simp [pairTerms]
  · rw [sumList_gt2]
    simp [pairTerms, sum2, sumList]

/-- C6 witness: on the concrete four-element list `[1, 2, 3, 4]` over
natural-number addition, `sum` recurses on the paired list `[3, 7]`. -/
theorem sumList_spec_witness :
    sumList Nat.add 0 [1, 2, 3, 4] = sumList Nat.add 0 (pairTerms Nat.add [1, 2, 3, 4]) :=
  (sumList_spec Nat.add 0 1 1 1 [1, 2, 3, 4]).2.2.1 (by decide)

/-- Helper: a power of `-1` is determined by the parity of the
exponent's absolute value. -/
theorem negOne_pow_natAbs (k : Int) :
    (-1 : Int) ^ k.natAbs = if k % 2 = 0 then 1 else -1 := by
  rcases Int.even_or_odd k with he | ho
  · rw [Even.neg_one_pow (Int.natAbs_even.mpr he), if_pos (Int.even_iff.mp he)]
  · rw [Odd.neg_one_pow (Int.natAbs_odd.mpr ho)]
    have := Int.odd_iff.mp ho
    rw [if_neg (by omega)]

/-- Helper: every sector sign is `1` or `-1`. -/
theorem sectorSign_pm (v : QNVal) :
    sectorSign v = 1 ∨ sectorSign v = -1 := by
  unfold sectorSign
  split_ifs
  · rw [negOne_pow_natAbs]
    split_ifs
    · exact Or.inl rfl
    · exact Or.inr rfl
  · exact Or.inl rfl

/-- Helper: the parity sign of `fermion(n)` is `(-1)^n`. -/
theorem paritySign_fermion (n : Int) :
    paritySign (fermion n) = (-1) ^ n.natAbs := by
  simp [paritySign, QN.store, fermion, QN1, mkQNVal, canonRep, sectorSign,
    isFermionicV, qnval0]

/-- Helper: the sector sign written with its condition as a plain
proposition on the modulus. -/
theorem sectorSign_if (v : QNVal) :
    sectorSign v = if v.mod < 0 then (-1 : Int) ^ v.val.natAbs else 1 := by
  unfold sectorSign isFermionicV
  split_ifs <;> simp_all

/-- Helper: per-sector multiplicativity of the sector sign under
addition, provided a fermionic sector's modulus is `-1` or even. -/
theorem sectorSign_add (a b c : QNVal) (h : addQNVal a b = some c)
    (hf : isFermionicV a = true → a.mod = -1 ∨ a.mod % 2 = 0) :
    sectorSign c = sectorSign a * sectorSign b := by
  unfold addQNVal at h
  by_cases hm : a.mod = b.mod
  · rw [if_neg (not_not_intro hm), Option.some.injEq] at h
    subst h
    by_cases hferm : a.mod < 0
    · have hcase := hf (by simp [isFermionicV, hferm])
      rcases hcase with h1 | h2
      · have hcr : canonRep a.mod (a.val + b.val) = a.val + b.val := by
          rw [canonRep, if_neg (by rw [h1]; norm_num)]
        rw [sectorSign_if, sectorSign_if, sectorSign_if]
        simp only [mkQNVal, hcr, ← hm]
        rw [if_pos hferm, if_pos hferm, if_pos hferm]
        rw [negOne_pow_natAbs, negOne_pow_natAbs, negOne_pow_natAbs]
        split_ifs <;> omega
      · have habs : (1 : Int) < |a.mod| := by
          rcases abs_cases a.mod with ⟨hc, _⟩ | ⟨hc, _⟩ <;> omega
        have hcr : canonRep a.mod (a.val + b.val) = (a.val + b.val) % |a.mod| := by
          rw [canonRep, if_pos habs]
        have hdvd : (2 : Int) ∣ |a.mod| :=
          (dvd_abs 2 a.mod).mpr (Int.dvd_of_emod_eq_zero h2)
        have hmod2 : (a.val + b.val) % |a.mod| % 2 = (a.val + b.val) % 2 :=
          Int.emod_emod_of_dvd _ hdvd
        rw [sectorSign_if, sectorSign_if, sectorSign_if]
        simp only [mkQNVal, hcr, ← hm]
        rw [if_pos hferm, if_pos hferm, if_pos hferm]
        rw [negOne_pow_natAbs, negOne_pow_natAbs, negOne_pow_natAbs, hmod2]
        split_ifs <;> omega
    · rw [sectorSign_if, sectorSign_if, sectorSign_if]
      simp only [mkQNVal, ← hm]
      rw [if_neg hferm, if_neg hferm, if_neg hferm]
      norm_num
  · rw [if_pos hm] at h
    exact Option.noConfusion h

/-- C7 counterexample: two QN values whose single active sectors share
the fermionic addition rule `mod = -3`, yet the parity sign of their
sum (sector value `(2+1) mod 3 = 0`) is `+1` while the product of their
parity signs is `-1`: multiplicativity fails for a fermionic sector
with odd modulus even though the addition rules match. -/
theorem paritySign_not_multiplicative :
    addQN qc1 qc2 = some qcSum ∧
    paritySign qcSum = 1 ∧
    paritySign qc1 * paritySign qc2 = -1 := by
  refine ⟨by decide, ?_, ?_⟩
  · simp [paritySign, QN.store, qcSum, QN1, mkQNVal, canonRep, sectorSign,
      isFermionicV, qnval0]
  · simp [paritySign, QN.store, qc1, qc2, QN1, mkQNVal, canonRep, sectorSign,
      isFermionicV, qnval0]

/-- C7 (amended): `paritySign(q)` is the product over the fermionic
sectors of `(-1)` raised to the sector value, hence always `+1` or
`-1`; `paritySign(fermion(n)) = (-1)^n` for every integer `n`; and
`paritySign(q1+q2) = paritySign(q1) * paritySign(q2)` whenever the two
operands' sectors have matching addition rules and, additionally,
every fermionic sector's modulus is `-1` or even. -/
theorem paritySign_spec (q : QN) (n : Int) (qa qb qs : QN) :
    paritySign q = (q.store.map sectorSign).prod ∧
    (paritySign q = 1 ∨ paritySign q = -1) ∧
    paritySign (fermion n) = (-1) ^ n.natAbs ∧
    (addQN qa qb = some qs →
     (∀ v ∈ qa.store, isFermionicV v = true → (v.mod = -1 ∨ v.mod % 2 = 0)) →
     paritySign qs = paritySign qa * paritySign qb) := by
  refine ⟨rfl, ?_, paritySign_fermion n, ?_⟩
  · rcases sectorSign_pm q.s0 with h0 | h0 <;>
      rcases sectorSign_pm q.s1 with h1 | h1 <;>
      rcases sectorSign_pm q.s2 with h2 | h2 <;>
      rcases sectorSign_pm q.s3 with h3 | h3 <;>
      simp [paritySign, QN.store, h0, h1, h2, h3]
  · intro hadd hsec
    unfold addQN at hadd
    cases h0 : addQNVal qa.s0 qb.s0 with
    | none => rw [h0] at hadd; simp at hadd
    | some t0 =>
      rw [h0] at hadd
      cases h1 : addQNVal qa.s1 qb.s1 with
      | none => rw [h1] at hadd; simp at hadd
      | some t1 =>
        rw [h1] at hadd
        cases h2 : addQNVal qa.s2 qb.s2 with
        | none => rw [h2] at hadd; simp at hadd
        | some t2 =>
          rw [h2] at hadd
          cases h3 : addQNVal qa.s3 qb.s3 with
          | none => rw [h3] at hadd; simp at hadd
          | some t3 =>
            rw [h3] at hadd
            simp only [Option.some_bind, Option.bind_eq_bind, Option.pure_def,
              Option.some.injEq] at hadd
            subst hadd
            have e0 := sectorSign_add _ _ _ h0 (hsec qa.s0 (by simp [QN.store]))
            have e1 := sectorSign_add _ _ _ h1 (hsec qa.s1 (by simp [QN.store]))
            have e2 := sectorSign_add _ _ _ h2 (hsec qa.s2 (by simp [QN.store]))
            have e3 := sectorSign_add _ _ _ h3 (hsec qa.s3 (by simp [QN.store]))
            simp only [paritySign, QN.store, List.map_cons, List.map_nil,
              List.prod_cons, List.prod_nil, e0, e1, e2, e3]
            ring

/-- C7 witness: two copies of `fermion(1)` have matching `mod = -1`
sectors, and the parity sign of their sum equals the product of their
parity signs. -/
theorem paritySign_spec_witness :
    paritySign (QN1 (mkQNVal 2 (-1))) =
      paritySign (fermion 1) * paritySign (fermion 1) := by
  have h := (paritySign_spec (fermion 1) 1 (fermion 1) (fermion 1)
      (QN1 (mkQNVal 2 (-1)))).2.2.2 (by decide) (by decide)
  exact h

/-- C8: the convenience constructors produce the documented per-sector
moduli — `spin`/`boson`: one sector `mod 1`; `fermion`: one sector
`mod -1`; `fparity`: one sector `mod -2`; `clock(n,N)`: one sector
`mod N`; `electron`: two sectors `mod 1` and `mod -1` — and `fermion(n)`
is fermionic for every `n`, with `fermion(3)` fermionic of parity sign
`-1`. -/
theorem qn_constructor_mods (Sz Nb Nf Pf n N : Int) :
    (spin Sz).store.map QNVal.mod = [1, 0, 0, 0] ∧
    (boson Nb).store.map QNVal.mod = [1, 0, 0, 0] ∧
    (fermion Nf).store.map QNVal.mod = [-1, 0, 0, 0] ∧
    (fparity Pf).store.map QNVal.mod = [-2, 0, 0, 0] ∧
    (clock n N).store.map QNVal.mod = [N, 0, 0, 0] ∧
    (electron Sz Nf).store.map QNVal.mod = [1, -1, 0, 0] ∧
    isFermionicQN (fermion Nf) = true ∧
    isFermionicQN (fermion 3) = true ∧
    paritySign (fermion 3) = -1 := by
  refine ⟨rfl, rfl, rfl, rfl, rfl, rfl, ?_, ?_, ?_⟩
  · simp [isFermionicQN, QN.store, fermion, QN1, mkQNVal, isFermionicV]
  · decide
  · rw [paritySign_fermion]
    norm_num

end ITensorSpec
